import Mathlib

/-!
Shallow embedding of the Tic-Tac-Toe engine in
`src/tic_tac_toe_frontend/src/App.js`: the board helpers (`LINES`,
`calculateWinner`, `pickRandomMove`, `emptyIndices`, `findBestAIMove`) and
the game-session operations of the `App` component (`handleClick`, `resetBoard`,
`resetScores`, the mode-selection buttons, the score/highlight `useEffect`
and the CPU-opponent `useEffect`).  Theme handling, styling and markup are
presentation-only and carry no game state, so they are not modelled.
-/

/-- A mark in a cell: JS 'X' or 'O'. -/
inductive Mark where
  | X
  | O
deriving DecidableEq, Fintype

/-- A cell of the board: JS 'X' , 'O' or null, with `none` modelling null. -/
abbrev Cell := Option Mark

/-- The JS `board` array (length 9 in every state the app constructs). -/
abbrev Board := List Cell

/-- The index triple `[a, b, c]` of one winning line. -/
abbrev Line := Nat × Nat × Nat

/-- The read `squares[i]` used for truthiness tests: an out-of-range read
gives `undefined`, which is falsy exactly like `null`, so both map to
`none`. -/
def cellAt (b : Board) (i : Nat) : Cell := b.getD i none

/-- JS array element assignment `a[i] = v`: in range it updates the slot,
past the end it extends the array (the skipped holes read back as
`undefined`, modelled `none`). -/
def jsSet (b : Board) (i : Nat) (v : Cell) : Board :=
  if i < b.length then b.set i v
  else b ++ List.replicate (i - b.length) none ++ [v]

/-- The constant `LINES`: 3 rows, 3 columns, 2 diagonals, in source order. -/
def LINES : List Line :=
  [(0, 1, 2), (3, 4, 5), (6, 7, 8),
   (0, 3, 6), (1, 4, 7), (2, 5, 8),
   (0, 4, 8), (2, 4, 6)]

/-- Result of `calculateWinner`: JS `null` is `ongoing`, `{ winner, line }`
is `won`, and `{ winner: null, line: [], isDraw: true }` is `draw`. -/
inductive Outcome where
  | ongoing
  | won (m : Mark) (l : Line)
  | draw
deriving DecidableEq

/-- Body of one `LINES` iteration:
`squares[a] && squares[a] === squares[b] && squares[a] === squares[c]`,
returning the shared mark when the line is complete. -/
def lineWinner (b : Board) (l : Line) : Option Mark :=
  match cellAt b l.1 with
  | none => none
  | some m =>
    if cellAt b l.2.1 = some m ∧ cellAt b l.2.2 = some m then some m else none

/-- The `for (const [a,b,c] of LINES)` loop: the first complete line in
scan order together with its mark, short-circuiting on the first match. -/
def scanLines (b : Board) : List Line → Option (Mark × Line)
  | [] => none
  | l :: rest =>
    match lineWinner b l with
    | some m => some (m, l)
    | none => scanLines b rest

/-- JS `squares.every(Boolean)`. -/
def boardFull (b : Board) : Bool := b.all fun c => c.isSome

/-- JS `calculateWinner(squares)`. -/
def calculateWinner (b : Board) : Outcome :=
  match scanLines b LINES with
  | some (m, l) => .won m l
  | none => if boardFull b then .draw else .ongoing

/-- The access `res?.winner` compared against a mark: `undefined` for
`null` results, `null` for draws, and the winning mark otherwise; the
comparison `=== mark` only succeeds in the `won` case. -/
def winnerOf : Outcome → Option Mark
  | .won m _ => some m
  | _ => none

/-- JS `emptyIndices(board)`: the ascending indices whose cell is falsy. -/
def emptyIndices (b : Board) : List Nat :=
  (List.range b.length).filter fun i => decide (cellAt b i = none)

/-- JS `pickRandomMove(board)`.  The JS
`board.map((v,i) => (v ? null : i)).filter(v => v !== null)` lists the
indices of falsy cells in ascending order, which is `emptyIndices`.  The
parameter `r` models the `Math.random()` draw; `% length` reproduces the
range of `Math.floor(Math.random() * empty.length)`. -/
def pickRandomMove (b : Board) (r : Nat) : Option Nat :=
  let empty := emptyIndices b
  if empty.length = 0 then none
  else some (empty.getD (r % empty.length) 0)

/-- JS `findBestAIMove(board, ai, human)`.  The two tier loops run over
`emptyIndices(board)`, whose members are in range, so plain `List.set`
models `copy[i] = mark`.  The strict `board[i] === null` tests of the
center/corner/side tiers are modelled by `b[i]? = some none` (an
out-of-range read gives `undefined`, which fails `=== null`).  `r` models
the `Math.random()` draw of whichever random tier runs. -/
def findBestAIMove (b : Board) (ai human : Mark) (r : Nat) : Option Nat :=
  match (emptyIndices b).find? (fun i =>
      decide (winnerOf (calculateWinner (b.set i (some ai))) = some ai)) with
  | some i => some i
  | none =>
  match (emptyIndices b).find? (fun i =>
      decide (winnerOf (calculateWinner (b.set i (some human))) = some human)) with
  | some i => some i
  | none =>
  if b[4]? = some none then some 4
  else
    let corners := [0, 2, 6, 8].filter fun i => decide (b[i]? = some none)
    if corners.length ≠ 0 then some (corners.getD (r % corners.length) 0)
    else
      let sides := [1, 3, 5, 7].filter fun i => decide (b[i]? = some none)
      if sides.length ≠ 0 then some (sides.getD (r % sides.length) 0)
      else none

/-- The game mode: the JS strings pvp and cpu. -/
inductive Mode where
  | pvp
  | cpu
deriving DecidableEq

/-- The `scores` state object with fields X, O and Draws. -/
structure Scores where
  X : Nat
  O : Nat
  Draws : Nat
deriving DecidableEq

/-- The game state of the `App` component: `board`, `xIsNext`, `mode`,
`scores`, `highlight`.  The `dark` theme flag is presentation-only. -/
structure Session where
  board : Board
  xIsNext : Bool
  mode : Mode
  scores : Scores
  highlight : List Nat
deriving DecidableEq

/-- JS `Array(9).fill(null)`. -/
def emptyBoard : Board := List.replicate 9 none

/-- The initial component state. -/
def initSession : Session :=
  { board := emptyBoard, xIsNext := true, mode := .pvp,
    scores := { X := 0, O := 0, Draws := 0 }, highlight := [] }

/-- The winner branch of the score effect: it spreads the old scores and
adds one to the field named by the winning mark. -/
def bumpWin (m : Mark) (sc : Scores) : Scores :=
  match m with
  | .X => { sc with X := sc.X + 1 }
  | .O => { sc with O := sc.O + 1 }

/-- The `res.line` array `[a, b, c]` stored into `highlight`. -/
def lineIdxList (l : Line) : List Nat := [l.1, l.2.1, l.2.2]

/-- The `useEffect` on `[board]` that detects a winner or draw and updates
`scores` and `highlight`; it runs exactly once after each `setBoard`
(note the draw branch leaves `highlight` untouched). -/
def scoreEffect (s : Session) : Session :=
  match calculateWinner s.board with
  | .won m l => { s with highlight := lineIdxList l, scores := bumpWin m s.scores }
  | .draw => { s with scores := { s.scores with Draws := s.scores.Draws + 1 } }
  | .ongoing => { s with highlight := [] }

/-- JS `handleClick(i)`, with the board-change effect folded in after the
`setBoard` of a successful move (a guarded early return performs no
`setBoard`, so the effect does not re-run). -/
def handleClick (s : Session) (i : Nat) : Session :=
  if calculateWinner s.board ≠ .ongoing ∨ (cellAt s.board i).isSome then s
  else if s.mode = .cpu ∧ s.xIsNext = false then s
  else scoreEffect { s with
    board := jsSet s.board i (some (if s.xIsNext then .X else .O)),
    xIsNext := !s.xIsNext }

/-- The CPU `useEffect`: when the mode is cpu, `calculateWinner` gives
null and O is to move, the timer computes
`findBestAIMove(board, O, X) ?? pickRandomMove(board)` and applies the
move when it names a still-null cell. -/
def cpuStep (s : Session) (r : Nat) : Session :=
  if s.mode = .cpu ∧ calculateWinner s.board = .ongoing ∧ s.xIsNext = false then
    match (findBestAIMove s.board .O .X r).orElse (fun _ => pickRandomMove s.board r) with
    | none => s
    | some i =>
      if s.board[i]? = some none then
        scoreEffect { s with board := jsSet s.board i (some .O), xIsNext := true }
      else s
  else s

/-- JS `resetBoard()`, with the board-change effect folded in. -/
def resetBoard (s : Session) : Session :=
  scoreEffect { s with board := emptyBoard, xIsNext := true, highlight := [] }

/-- JS `resetScores()`. -/
def resetScores (s : Session) : Session :=
  { s with scores := { X := 0, O := 0, Draws := 0 } }

/-- A mode-selection button: `setMode(m); resetBoard();`. -/
def setModeOp (s : Session) (m : Mode) : Session :=
  resetBoard { s with mode := m }

/-! Specification-side predicates, written from the wording of the spec rather
than from the loop structure of the code. -/

/-- The line `l` holds three equal non-Empty marks `m`. -/
abbrev lineFilledWith (b : Board) (l : Line) (m : Mark) : Prop :=
  cellAt b l.1 = some m ∧ cellAt b l.2.1 = some m ∧ cellAt b l.2.2 = some m

/-- At least one of the 8 winning Lines is uniform and non-Empty. -/
abbrev hasWinningLine (b : Board) : Prop :=
  ∃ m l, l ∈ LINES ∧ lineFilledWith b l m

/-- All 9 cells are occupied. -/
abbrev allOccupied (b : Board) : Prop :=
  ∀ i, i < 9 → (cellAt b i).isSome = true

/-- Cell `i` is empty and placing `m` there makes `evaluate` report a win
for `m`. -/
abbrev winningSpot (b : Board) (m : Mark) (i : Nat) : Prop :=
  i < b.length ∧ cellAt b i = none ∧
    ∃ l, calculateWinner (b.set i (some m)) = .won m l

/-! Helper lemmas about the rules evaluator. -/

lemma lineWinner_eq_some {b : Board} {l : Line} {m : Mark} :
    lineWinner b l = some m ↔ lineFilledWith b l m := by
  unfold lineWinner lineFilledWith
  cases h1 : cellAt b l.1 with
  | none => simp
  | some m1 =>
    dsimp only
    by_cases h2 : cellAt b l.2.1 = some m1 ∧ cellAt b l.2.2 = some m1
    · rw [if_pos h2]
      constructor
      · intro hm
        exact ⟨hm, hm ▸ h2.1, hm ▸ h2.2⟩
      · rintro ⟨hm, _, _⟩
        exact hm
    · rw [if_neg h2]
      constructor
      · intro hm
        cases hm
      · rintro ⟨hm, hB, hC⟩
        obtain rfl : m1 = m := by injection hm
        exact absurd ⟨hB, hC⟩ h2

lemma scanLines_eq_none {b : Board} {ls : List Line} :
    scanLines b ls = none ↔ ∀ l ∈ ls, ∀ m, ¬ lineFilledWith b l m := by
  induction ls with
  | nil => simp [scanLines]
  | cons l rest ih =>
    unfold scanLines
    cases hw : lineWinner b l with
    | some m =>
      constructor
      · intro h
        cases h
      · intro h
        exact absurd (lineWinner_eq_some.mp hw) (h l (List.mem_cons_self l rest) m)
    | none =>
      rw [ih]
      constructor
      · intro h l' hl' m hf
        rcases List.mem_cons.mp hl' with rfl | hmem
        · rw [← lineWinner_eq_some] at hf
          rw [hw] at hf
          cases hf
        · exact h l' hmem m hf
      · intro h l' hl' m hf
        exact h l' (List.mem_cons_of_mem _ hl') m hf

lemma scanLines_eq_some {b : Board} {ls : List Line} {m : Mark} {l : Line} :
    scanLines b ls = some (m, l) → l ∈ ls ∧ lineFilledWith b l m := by
  induction ls with
  | nil => intro h; cases h
  | cons l0 rest ih =>
    unfold scanLines
    cases hw : lineWinner b l0 with
    | some m0 =>
      intro h
      obtain ⟨rfl, rfl⟩ : m0 = m ∧ l0 = l := by
        have := Option.some.inj h
        exact ⟨congrArg Prod.fst this, congrArg Prod.snd this⟩
      exact ⟨List.mem_cons_self _ _, lineWinner_eq_some.mp hw⟩
    | none =>
      intro h
      obtain ⟨hmem, hf⟩ := ih h
      exact ⟨List.mem_cons_of_mem _ hmem, hf⟩

lemma boardFull_iff {b : Board} (h : b.length = 9) :
    boardFull b = true ↔ allOccupied b := by
  unfold boardFull allOccupied
  rw [List.all_eq_true]
  constructor
  · intro hall i hi
    have hi' : i < b.length := by omega
    unfold cellAt
    rw [List.getD_eq_getElem b none hi']
    exact hall _ (List.getElem_mem hi')
  · intro hocc x hx
    obtain ⟨i, hi, rfl⟩ := List.mem_iff_getElem.mp hx
    have hocc' := hocc i (by omega)
    unfold cellAt at hocc'
    rwa [List.getD_eq_getElem b none hi] at hocc'

lemma mem_emptyIndices {b : Board} {i : Nat} :
    i ∈ emptyIndices b ↔ i < b.length ∧ cellAt b i = none := by
  unfold emptyIndices
  rw [List.mem_filter, List.mem_range]
  simp

lemma emptyIndices_sorted (b : Board) : (emptyIndices b).Pairwise (· < ·) :=
  List.Pairwise.filter _ (List.pairwise_lt_range b.length)

lemma find_first_sorted {l : List Nat} {p : Nat → Bool} {i : Nat}
    (hs : l.Pairwise (· < ·)) (h : l.find? p = some i) :
    i ∈ l ∧ p i = true ∧ ∀ k ∈ l, k < i → p k = false := by
  induction l with
  | nil => cases h
  | cons a t ih =>
    rcases List.pairwise_cons.mp hs with ⟨ha, ht⟩
    by_cases hp : p a
    · rw [List.find?_cons_of_pos _ hp] at h
      obtain rfl : a = i := by injection h
      refine ⟨List.mem_cons_self _ _, hp, ?_⟩
      intro k hk hki
      rcases List.mem_cons.mp hk with rfl | hkt
      · omega
      · exact absurd (ha k hkt) (by omega)
    · rw [List.find?_cons_of_neg _ hp] at h
      obtain ⟨hmem, hpi, hmin⟩ := ih ht h
      refine ⟨List.mem_cons_of_mem _ hmem, hpi, ?_⟩
      intro k hk hki
      rcases List.mem_cons.mp hk with rfl | hkt
      · exact Bool.not_eq_true _ ▸ hp
      · exact hmin k hkt hki

lemma winnerOf_eq_some {o : Outcome} {m : Mark} :
    winnerOf o = some m ↔ ∃ l, o = .won m l := by
  cases o with
  | ongoing => simp [winnerOf]
  | draw => simp [winnerOf]
  | won m1 l =>
    simp only [winnerOf, Option.some.injEq, Outcome.won.injEq]
    constructor
    · rintro rfl
      exact ⟨l, rfl, rfl⟩
    · rintro ⟨l1, rfl, rfl⟩
      rfl

lemma scoreEffect_board (s : Session) : (scoreEffect s).board = s.board := by
  unfold scoreEffect
  cases calculateWinner s.board <;> rfl

lemma scoreEffect_mode (s : Session) : (scoreEffect s).mode = s.mode := by
  unfold scoreEffect
  cases calculateWinner s.board <;> rfl

lemma scoreEffect_xIsNext (s : Session) : (scoreEffect s).xIsNext = s.xIsNext := by
  unfold scoreEffect
  cases calculateWinner s.board <;> rfl

lemma scoreEffect_scores_won {s : Session} {m : Mark} {l : Line}
    (h : calculateWinner s.board = .won m l) :
    (scoreEffect s).scores = bumpWin m s.scores := by
  unfold scoreEffect
  rw [h]

lemma scoreEffect_scores_draw {s : Session}
    (h : calculateWinner s.board = .draw) :
    (scoreEffect s).scores = { s.scores with Draws := s.scores.Draws + 1 } := by
  unfold scoreEffect
  rw [h]

lemma scoreEffect_scores_ongoing {s : Session}
    (h : calculateWinner s.board = .ongoing) :
    (scoreEffect s).scores = s.scores := by
  unfold scoreEffect
  rw [h]

lemma scanLines_append_none {b : Board} {pre rest : List Line}
    (h : ∀ l ∈ pre, ∀ m, ¬ lineFilledWith b l m) :
    scanLines b (pre ++ rest) = scanLines b rest := by
  induction pre with
  | nil => rfl
  | cons l0 t ih =>
    have hw : lineWinner b l0 = none := by
      cases hw : lineWinner b l0 with
      | none => rfl
      | some m =>
        exact absurd (lineWinner_eq_some.mp hw) (h l0 (List.mem_cons_self _ _) m)
    rw [List.cons_append]
    simp only [scanLines, hw]
    exact ih fun l hl m => h l (List.mem_cons_of_mem _ hl) m

lemma calculateWinner_eq_draw {b : Board} :
    calculateWinner b = .draw ↔ scanLines b LINES = none ∧ boardFull b = true := by
  unfold calculateWinner
  cases hsc : scanLines b LINES with
  | some p =>
    obtain ⟨m0, l0⟩ := p
    simp
  | none =>
    by_cases hb : boardFull b <;> simp [hb]

lemma calculateWinner_eq_ongoing {b : Board} :
    calculateWinner b = .ongoing ↔ scanLines b LINES = none ∧ boardFull b = false := by
  unfold calculateWinner
  cases hsc : scanLines b LINES with
  | some p =>
    obtain ⟨m0, l0⟩ := p
    simp
  | none =>
    by_cases hb : boardFull b <;> simp [hb]

lemma scanLines_LINES_none_iff {b : Board} :
    scanLines b LINES = none ↔ ¬ hasWinningLine b := by
  rw [scanLines_eq_none]
  unfold hasWinningLine
  constructor
  · rintro hall ⟨m, l, hmem, hf⟩
    exact hall l hmem m hf
  · intro hno l hl m hf
    exact hno ⟨m, l, hl, hf⟩

/-- C1: for every 9-cell board, `calculateWinner` reports `won m l` only
when `l` is among the 8 winning `LINES` and holds three equal non-Empty
marks `m`; it reports a win whenever at least one winning line is uniform
and non-Empty; it reports `draw` exactly when no line is uniform and all
9 cells are occupied; and it reports `ongoing` otherwise. -/
theorem calculateWinner_spec (b : Board) (h : b.length = 9) :
    (∀ m l, calculateWinner b = .won m l → l ∈ LINES ∧ lineFilledWith b l m) ∧
    (hasWinningLine b → ∃ m l, calculateWinner b = .won m l) ∧
    (calculateWinner b = .draw ↔ ¬ hasWinningLine b ∧ allOccupied b) ∧
    (calculateWinner b = .ongoing ↔ ¬ hasWinningLine b ∧ ¬ allOccupied b) := by
  have hfull_not : boardFull b = false ↔ ¬ allOccupied b := by
    rw [← boardFull_iff h]
    cases boardFull b <;> simp
  refine ⟨?_, ?_, ?_, ?_⟩
  · intro m l hw
    have hsome : ∃ p, scanLines b LINES = some p := by
      unfold calculateWinner at hw
      cases hsc : scanLines b LINES with
      | some p => exact ⟨p, rfl⟩
      | none =>
        rw [hsc] at hw
        by_cases hb : boardFull b <;> simp [hb] at hw
    obtain ⟨⟨m0, l0⟩, hsc⟩ := hsome
    have hw2 : Outcome.won m0 l0 = Outcome.won m l := by
      unfold calculateWinner at hw
      rw [hsc] at hw
      exact hw
    obtain ⟨rfl, rfl⟩ : m0 = m ∧ l0 = l := by
      injection hw2 with h1 h2
      exact ⟨h1, h2⟩
    exact scanLines_eq_some hsc
  · intro hwin
    cases hsc : scanLines b LINES with
    | none => exact absurd hwin (scanLines_LINES_none_iff.mp hsc)
    | some p =>
      obtain ⟨m0, l0⟩ := p
      refine ⟨m0, l0, ?_⟩
      unfold calculateWinner
      rw [hsc]
  · rw [calculateWinner_eq_draw, scanLines_LINES_none_iff, boardFull_iff h]
  · rw [calculateWinner_eq_ongoing, scanLines_LINES_none_iff, hfull_not]

/-- Witness for C1: the theorem applied to the board `[X,X,X,·,·,·,·,·,·]`,
whose top row is uniform, yields a `won` result. -/
theorem calculateWinner_spec_witness :
    ∃ m l, calculateWinner
      [some Mark.X, some Mark.X, some Mark.X, none, none, none, none, none, none] =
      Outcome.won m l :=
  (calculateWinner_spec _ (by decide)).2.1 ⟨Mark.X, (0, 1, 2), by decide, by decide⟩

/-- C5: `calculateWinner` returns the first matching line in the fixed
scan order of `LINES` (rows, then columns, then diagonals): whenever
`LINES` splits as `pre ++ l :: post` with no line of `pre` uniform and `l`
uniform with mark `m`, the result is `won m l` — in particular when more
than one line is simultaneously complete. -/
theorem calculateWinner_first_match (b : Board) (pre post : List Line)
    (m : Mark) (l : Line) (hsplit : LINES = pre ++ l :: post)
    (hpre : ∀ lp ∈ pre, ∀ mp, ¬ lineFilledWith b lp mp)
    (hl : lineFilledWith b l m) :
    calculateWinner b = .won m l := by
  unfold calculateWinner
  rw [hsplit, scanLines_append_none hpre]
  unfold scanLines
  rw [lineWinner_eq_some.mpr hl]

/-- Witness for C5: on `[X,O,X,O,O,O,·,·,·]` both nothing in row 0 and the
uniform row 1 are scanned; the theorem gives `won O (3,4,5)`. -/
theorem calculateWinner_first_match_witness :
    calculateWinner [some Mark.X, some Mark.O, some Mark.X,
      some Mark.O, some Mark.O, some Mark.O, none, none, none] =
      Outcome.won Mark.O (3, 4, 5) :=
  calculateWinner_first_match _ [(0, 1, 2)]
    [(6, 7, 8), (0, 3, 6), (1, 4, 7), (2, 5, 8), (0, 4, 8), (2, 4, 6)]
    Mark.O (3, 4, 5) (by decide) (by decide) (by decide)

/-- C2 (amended): a `handleClick` call that is invalid because the game is
already decided (`calculateWinner` non-null), the target cell is occupied,
or the computer is to move in cpu mode, leaves the whole session state
unchanged.  (The out-of-range case of the original claim fails: see the
counterexample below.) -/
theorem handleClick_invalid_noop (s : Session) (i : Nat)
    (h : calculateWinner s.board ≠ .ongoing ∨ (cellAt s.board i).isSome = true ∨
      (s.mode = .cpu ∧ s.xIsNext = false)) :
    handleClick s i = s := by
  unfold handleClick
  rcases h with h1 | h2 | h3
  · rw [if_pos (Or.inl h1)]
  · rw [if_pos (Or.inr h2)]
  · by_cases hg : calculateWinner s.board ≠ .ongoing ∨ (cellAt s.board i).isSome
    · rw [if_pos hg]
    · rw [if_neg hg, if_pos h3]

/-- Witness for the amended C2: clicking cell 5 in a state already won by
X is a no-op. -/
theorem handleClick_invalid_noop_witness :
    handleClick
      { board := [some Mark.X, some Mark.X, some Mark.X, none, none, none, none, none, none],
        xIsNext := false, mode := Mode.pvp,
        scores := { X := 1, O := 0, Draws := 0 }, highlight := [0, 1, 2] } 5 =
      { board := [some Mark.X, some Mark.X, some Mark.X, none, none, none, none, none, none],
        xIsNext := false, mode := Mode.pvp,
        scores := { X := 1, O := 0, Draws := 0 }, highlight := [0, 1, 2] } :=
  handleClick_invalid_noop _ 5 (Or.inl (by decide))

/-- Counterexample to C2 as stated: the out-of-range index 9, submitted in
the initial state (ongoing, pvp, X to move), is not ignored — the board
array is extended to length 10 with an X written at index 9 and the turn
flips to O. -/
theorem handleClick_out_of_range_changes_state :
    handleClick initSession 9 ≠ initSession ∧
      (handleClick initSession 9).board.length = 10 ∧
      (handleClick initSession 9).xIsNext = false := by
  decide

/-- C6: a mode-selection button (`setMode(m); resetBoard()`) always yields
the empty board with X to move, an ongoing outcome, the chosen mode and a
cleared highlight, leaving all three score counters unchanged. -/
theorem setModeOp_spec (s : Session) (m : Mode) :
    setModeOp s m =
      { board := emptyBoard, xIsNext := true, mode := m,
        scores := s.scores, highlight := [] } ∧
      calculateWinner (setModeOp s m).board = .ongoing :=
  ⟨rfl, rfl⟩

/-- C9: `resetBoard` is idempotent on the full session state. -/
theorem resetBoard_idem (s : Session) :
    resetBoard (resetBoard s) = resetBoard s := rfl

lemma winningSpot_iff {b : Board} {m : Mark} {i : Nat} :
    winningSpot b m i ↔ i ∈ emptyIndices b ∧
      decide (winnerOf (calculateWinner (b.set i (some m))) = some m) = true := by
  constructor
  · rintro ⟨h1, h2, l, h3⟩
    refine ⟨mem_emptyIndices.mpr ⟨h1, h2⟩, ?_⟩
    rw [decide_eq_true_eq, winnerOf_eq_some]
    exact ⟨l, h3⟩
  · rintro ⟨hmem, hp⟩
    obtain ⟨h1, h2⟩ := mem_emptyIndices.mp hmem
    rw [decide_eq_true_eq, winnerOf_eq_some] at hp
    exact ⟨h1, h2, hp⟩

lemma findWin_none_iff {b : Board} {m : Mark} :
    (emptyIndices b).find? (fun i =>
        decide (winnerOf (calculateWinner (b.set i (some m))) = some m)) = none ↔
      ¬ ∃ i, winningSpot b m i := by
  rw [List.find?_eq_none]
  constructor
  · rintro hall ⟨i, hw⟩
    obtain ⟨hmem, hp⟩ := winningSpot_iff.mp hw
    exact absurd hp (by simpa using hall i hmem)
  · intro hno x hx hpx
    exact hno ⟨x, winningSpot_iff.mpr ⟨hx, by simpa using hpx⟩⟩

lemma findBestAIMove_eq_of_first {b : Board} {ai human : Mark} {r i : Nat}
    (h : (emptyIndices b).find? (fun i =>
        decide (winnerOf (calculateWinner (b.set i (some ai))) = some ai)) = some i) :
    findBestAIMove b ai human r = some i := by
  unfold findBestAIMove
  rw [h]

lemma findBestAIMove_eq_of_second {b : Board} {ai human : Mark} {r i : Nat}
    (h1 : (emptyIndices b).find? (fun i =>
        decide (winnerOf (calculateWinner (b.set i (some ai))) = some ai)) = none)
    (h2 : (emptyIndices b).find? (fun i =>
        decide (winnerOf (calculateWinner (b.set i (some human))) = some human)) = some i) :
    findBestAIMove b ai human r = some i := by
  unfold findBestAIMove
  rw [h1, h2]

/-- C3: the win tier dominates: whenever some empty cell completes a line
for `self`, `findBestAIMove` returns the smallest such index, regardless
of any threat by `opp`; otherwise, whenever some empty cell would complete
a line for `opp`, it returns the smallest such blocking index.  In
particular `[O,O,·,·,·,·,·,·,·]` gives 2 (win over block) and
`[X,X,·,·,·,·,·,·,·]` gives 2 (block), for every random draw `r`. -/
theorem findBestAIMove_win_then_block (b : Board) (self opp : Mark) (r : Nat) :
    ((∃ i, winningSpot b self i) →
      ∃ i, findBestAIMove b self opp r = some i ∧ winningSpot b self i ∧
        ∀ k, k < i → ¬ winningSpot b self k) ∧
    ((¬ ∃ i, winningSpot b self i) → (∃ i, winningSpot b opp i) →
      ∃ i, findBestAIMove b self opp r = some i ∧ winningSpot b opp i ∧
        ∀ k, k < i → ¬ winningSpot b opp k) ∧
    findBestAIMove [some Mark.O, some Mark.O, none, none, none, none, none, none, none]
      Mark.O Mark.X r = some 2 ∧
    findBestAIMove [some Mark.X, some Mark.X, none, none, none, none, none, none, none]
      Mark.O Mark.X r = some 2 := by
  refine ⟨?_, ?_, rfl, rfl⟩
  · rintro ⟨i0, hw0⟩
    obtain ⟨hmem0, hp0⟩ := winningSpot_iff.mp hw0
    have hsome : (((emptyIndices b).find? (fun i =>
        decide (winnerOf (calculateWinner (b.set i (some self))) = some self)))).isSome :=
      List.find?_isSome.mpr ⟨i0, hmem0, hp0⟩
    obtain ⟨i, hfind⟩ := Option.isSome_iff_exists.mp hsome
    obtain ⟨hmem, hpi, hmin⟩ := find_first_sorted (emptyIndices_sorted b) hfind
    refine ⟨i, findBestAIMove_eq_of_first hfind, winningSpot_iff.mpr ⟨hmem, hpi⟩, ?_⟩
    intro k hk hwk
    obtain ⟨hkm, hkp⟩ := winningSpot_iff.mp hwk
    rw [hmin k hkm hk] at hkp
    cases hkp
  · intro hno
    rintro ⟨i0, hw0⟩
    have h1 := findWin_none_iff.mpr hno
    obtain ⟨hmem0, hp0⟩ := winningSpot_iff.mp hw0
    have hsome : (((emptyIndices b).find? (fun i =>
        decide (winnerOf (calculateWinner (b.set i (some opp))) = some opp)))).isSome :=
      List.find?_isSome.mpr ⟨i0, hmem0, hp0⟩
    obtain ⟨i, hfind⟩ := Option.isSome_iff_exists.mp hsome
    obtain ⟨hmem, hpi, hmin⟩ := find_first_sorted (emptyIndices_sorted b) hfind
    refine ⟨i, findBestAIMove_eq_of_second h1 hfind, winningSpot_iff.mpr ⟨hmem, hpi⟩, ?_⟩
    intro k hk hwk
    obtain ⟨hkm, hkp⟩ := winningSpot_iff.mp hwk
    rw [hmin k hkm hk] at hkp
    cases hkp

/-- Witness for C3: on `[O,O,·,·,·,·,·,·,·]` the win tier applies, and the
theorem produces the winning index (which its concrete clause pins to 2). -/
theorem findBestAIMove_win_then_block_witness :
    ∃ i, findBestAIMove
        [some Mark.O, some Mark.O, none, none, none, none, none, none, none]
        Mark.O Mark.X 7 = some i ∧
      winningSpot [some Mark.O, some Mark.O, none, none, none, none, none, none, none]
        Mark.O i ∧
      ∀ k, k < i →
        ¬ winningSpot [some Mark.O, some Mark.O, none, none, none, none, none, none, none]
          Mark.O k :=
  (findBestAIMove_win_then_block _ Mark.O Mark.X 7).1
    ⟨2, by decide, by decide, (0, 1, 2), by decide⟩

lemma getElem?_null_iff {b : Board} {i : Nat} (hi : i < b.length) :
    b[i]? = some none ↔ cellAt b i = none := by
  rw [List.getElem?_eq_getElem hi]
  unfold cellAt
  rw [List.getD_eq_getElem b none hi]
  constructor
  · intro hh
    injection hh
  · intro hh
    rw [hh]

lemma emptyIndices_nil_iff {b : Board} (h : b.length = 9) :
    emptyIndices b = [] ↔ allOccupied b := by
  unfold emptyIndices
  rw [List.filter_eq_nil_iff]
  constructor
  · intro hall i hi
    have h2 := hall i (List.mem_range.mpr (by omega))
    simp only [decide_eq_true_eq] at h2
    exact Option.ne_none_iff_isSome.mp h2
  · intro hocc i hi hdec
    simp only [decide_eq_true_eq] at hdec
    have h2 := hocc i (by have := List.mem_range.mp hi; omega)
    rw [hdec] at h2
    cases h2

lemma pickRandomMove_eq_none_iff {b : Board} (h : b.length = 9) (r : Nat) :
    pickRandomMove b r = none ↔ allOccupied b := by
  unfold pickRandomMove
  rw [← emptyIndices_nil_iff h]
  constructor
  · intro hres
    by_cases hl : (emptyIndices b).length = 0
    · exact List.length_eq_zero.mp hl
    · rw [if_neg hl] at hres
      cases hres
  · intro hnil
    rw [if_pos (by rw [hnil]; rfl)]


lemma filter_getD_mem {L : List Nat} {P : Nat → Bool}
    (h : (L.filter P).length ≠ 0) (r : Nat) :
    (L.filter P).getD (r % (L.filter P).length) 0 ∈ L.filter P := by
  have hlen : 0 < (L.filter P).length := Nat.pos_of_ne_zero h
  have hr := Nat.mod_lt r hlen
  rw [List.getD_eq_getElem _ _ hr]
  exact List.getElem_mem hr

lemma findBestAIMove_cases {b : Board} (h : b.length = 9) (ai human : Mark) (r : Nat) :
    (findBestAIMove b ai human r = none ↔ allOccupied b) ∧
    (∀ i, findBestAIMove b ai human r = some i → i < 9 ∧ cellAt b i = none) := by
  have hcell : ∀ i, i < 9 → (b[i]? = some none ↔ cellAt b i = none) := by
    intro i hi
    exact getElem?_null_iff (by omega)
  have hocc_not : ∀ i, i < 9 → ¬ b[i]? = some none → (cellAt b i).isSome = true := by
    intro i hi hn
    exact Option.ne_none_iff_isSome.mp fun hc => hn ((hcell i hi).mpr hc)
  have hfil_occ : ∀ L : List Nat, L.filter (fun i => decide (b[i]? = some none)) = [] →
      ∀ i ∈ L, i < 9 → (cellAt b i).isSome = true := by
    intro L hL i hiL hi
    refine hocc_not i hi fun hnull => ?_
    have h2 := List.filter_eq_nil_iff.mp hL i hiL
    simp [hnull] at h2
  unfold findBestAIMove
  cases h1 : (emptyIndices b).find? (fun i =>
      decide (winnerOf (calculateWinner (b.set i (some ai))) = some ai)) with
  | some i =>
    obtain ⟨hmem, -, -⟩ := find_first_sorted (emptyIndices_sorted b) h1
    obtain ⟨hlt, hc⟩ := mem_emptyIndices.mp hmem
    constructor
    · constructor
      · intro hres
        cases hres
      · intro hall
        have h2 := hall i (by omega)
        rw [hc] at h2
        cases h2
    · intro j hj
      obtain rfl : i = j := by injection hj
      exact ⟨by omega, hc⟩
  | none =>
  cases h2 : (emptyIndices b).find? (fun i =>
      decide (winnerOf (calculateWinner (b.set i (some human))) = some human)) with
  | some i =>
    obtain ⟨hmem, -, -⟩ := find_first_sorted (emptyIndices_sorted b) h2
    obtain ⟨hlt, hc⟩ := mem_emptyIndices.mp hmem
    constructor
    · constructor
      · intro hres
        cases hres
      · intro hall
        have h3 := hall i (by omega)
        rw [hc] at h3
        cases h3
    · intro j hj
      obtain rfl : i = j := by injection hj
      exact ⟨by omega, hc⟩
  | none =>
  dsimp only
  by_cases h4 : b[4]? = some none
  · rw [if_pos h4]
    have hc4 : cellAt b 4 = none := (hcell 4 (by omega)).mp h4
    constructor
    · constructor
      · intro hres
        cases hres
      · intro hall
        have h5 := hall 4 (by omega)
        rw [hc4] at h5
        cases h5
    · intro j hj
      obtain rfl : 4 = j := by injection hj
      exact ⟨by omega, hc4⟩
  · rw [if_neg h4]
    by_cases hco : ([0, 2, 6, 8].filter fun i => decide (b[i]? = some none)).length ≠ 0
    · rw [if_pos hco]
      set j0 := ([0, 2, 6, 8].filter fun i => decide (b[i]? = some none)).getD
        (r % ([0, 2, 6, 8].filter fun i => decide (b[i]? = some none)).length) 0 with hj0
      have hmem : j0 ∈ [0, 2, 6, 8].filter fun i => decide (b[i]? = some none) := by
        rw [hj0]
        exact filter_getD_mem hco r
      obtain ⟨hm048, hp⟩ := List.mem_filter.mp hmem
      have hd : j0 = 0 ∨ j0 = 2 ∨ j0 = 6 ∨ j0 = 8 := by simpa using hm048
      have hj9 : j0 < 9 := by omega
      have hcj : cellAt b j0 = none := (hcell _ hj9).mp (of_decide_eq_true hp)
      constructor
      · constructor
        · intro hres
          cases hres
        · intro hall
          have h5 := hall _ hj9
          rw [hcj] at h5
          cases h5
      · intro j hj
        obtain rfl := Option.some.inj hj
        exact ⟨hj9, hcj⟩
    · rw [if_neg hco]
      have hcor : ([0, 2, 6, 8].filter fun i => decide (b[i]? = some none)) = [] :=
        List.length_eq_zero.mp (by omega)
      by_cases hsi : ([1, 3, 5, 7].filter fun i => decide (b[i]? = some none)).length ≠ 0
      · rw [if_pos hsi]
        set j0 := ([1, 3, 5, 7].filter fun i => decide (b[i]? = some none)).getD
          (r % ([1, 3, 5, 7].filter fun i => decide (b[i]? = some none)).length) 0 with hj0
        have hmem : j0 ∈ [1, 3, 5, 7].filter fun i => decide (b[i]? = some none) := by
          rw [hj0]
          exact filter_getD_mem hsi r
        obtain ⟨hm1357, hp⟩ := List.mem_filter.mp hmem
        have hd : j0 = 1 ∨ j0 = 3 ∨ j0 = 5 ∨ j0 = 7 := by simpa using hm1357
        have hj9 : j0 < 9 := by omega
        have hcj : cellAt b j0 = none := (hcell _ hj9).mp (of_decide_eq_true hp)
        constructor
        · constructor
          · intro hres
            cases hres
          · intro hall
            have h5 := hall _ hj9
            rw [hcj] at h5
            cases h5
        · intro j hj
          obtain rfl := Option.some.inj hj
          exact ⟨hj9, hcj⟩
      · rw [if_neg hsi]
        have hsid : ([1, 3, 5, 7].filter fun i => decide (b[i]? = some none)) = [] :=
          List.length_eq_zero.mp (by omega)
        have hall : allOccupied b := by
          intro i hi
          interval_cases i
          · exact hfil_occ _ hcor 0 (by decide) (by omega)
          · exact hfil_occ _ hsid 1 (by decide) (by omega)
          · exact hfil_occ _ hcor 2 (by decide) (by omega)
          · exact hfil_occ _ hsid 3 (by decide) (by omega)
          · exact hocc_not 4 (by omega) h4
          · exact hfil_occ _ hsid 5 (by decide) (by omega)
          · exact hfil_occ _ hcor 6 (by decide) (by omega)
          · exact hfil_occ _ hsid 7 (by decide) (by omega)
          · exact hfil_occ _ hcor 8 (by decide) (by omega)
        constructor
        · constructor
          · intro hres
            exact hall
          · intro h5
            rfl
        · intro j hj
          cases hj

/-- C7: on a 9-cell board, `findBestAIMove` returns `none` exactly when
all 9 cells are occupied; any returned index is in `0..8` and names an
empty cell — never an out-of-range index, never an occupied cell. -/
theorem findBestAIMove_safe (b : Board) (h : b.length = 9) (ai human : Mark) (r : Nat) :
    (findBestAIMove b ai human r = none ↔ allOccupied b) ∧
    (∀ i, findBestAIMove b ai human r = some i → i < 9 ∧ cellAt b i = none) :=
  findBestAIMove_cases h ai human r

/-- Witness for C7 at the empty board. -/
theorem findBestAIMove_safe_witness :
    findBestAIMove emptyBoard Mark.O Mark.X 5 = none ↔ allOccupied emptyBoard :=
  (findBestAIMove_safe emptyBoard (by decide) Mark.O Mark.X 5).1

/-- C8: randomness is confined to the corner and side tiers: whenever the
win tier, the block tier, or the center tier applies, `findBestAIMove`
returns the same move for any two random draws. -/
theorem findBestAIMove_random_confined (b : Board) (self opp : Mark) (r1 r2 : Nat)
    (h : (∃ i, winningSpot b self i) ∨ (∃ i, winningSpot b opp i) ∨ b[4]? = some none) :
    findBestAIMove b self opp r1 = findBestAIMove b self opp r2 := by
  unfold findBestAIMove
  cases h1 : (emptyIndices b).find? (fun i =>
      decide (winnerOf (calculateWinner (b.set i (some self))) = some self)) with
  | some i => rfl
  | none =>
  cases h2 : (emptyIndices b).find? (fun i =>
      decide (winnerOf (calculateWinner (b.set i (some opp))) = some opp)) with
  | some i => rfl
  | none =>
    dsimp only
    have hc : b[4]? = some none := by
      rcases h with hw | hw | hc
      · exact absurd hw (findWin_none_iff.mp h1)
      · exact absurd hw (findWin_none_iff.mp h2)
      · exact hc
    rw [if_pos hc, if_pos hc]

/-- Witness for C8: with the win tier applicable on `[O,O,·,·,·,·,·,·,·]`,
two different random draws give the same move. -/
theorem findBestAIMove_random_confined_witness :
    findBestAIMove [some Mark.O, some Mark.O, none, none, none, none, none, none, none]
        Mark.O Mark.X 0 =
      findBestAIMove [some Mark.O, some Mark.O, none, none, none, none, none, none, none]
        Mark.O Mark.X 5 :=
  findBestAIMove_random_confined _ Mark.O Mark.X 0 5
    (Or.inl ⟨2, by decide, by decide, (0, 1, 2), by decide⟩)

/-- C10: the `?? pickRandomMove(board)` fallback of the CPU effect is
unreachable on 9-cell boards: with an empty cell present the heuristic
itself returns a move, on a full board both functions return `none`, and
in every case the coalesced move equals the choice of the heuristic itself. -/
theorem cpuFallback_redundant (b : Board) (h : b.length = 9) (r : Nat) :
    ((∃ i, i < 9 ∧ cellAt b i = none) → (findBestAIMove b .O .X r).isSome = true) ∧
    (allOccupied b → findBestAIMove b .O .X r = none ∧ pickRandomMove b r = none) ∧
    (findBestAIMove b .O .X r).orElse (fun _ => pickRandomMove b r) =
      findBestAIMove b .O .X r := by
  obtain ⟨hnone_iff, hsome⟩ := findBestAIMove_cases h Mark.O Mark.X r
  refine ⟨?_, ?_, ?_⟩
  · rintro ⟨i, hi, hc⟩
    cases hres : findBestAIMove b .O .X r with
    | some j => rfl
    | none =>
      have hall := hnone_iff.mp hres
      have h2 := hall i hi
      rw [hc] at h2
      cases h2
  · intro hall
    exact ⟨hnone_iff.mpr hall, (pickRandomMove_eq_none_iff h r).mpr hall⟩
  · cases hres : findBestAIMove b .O .X r with
    | some j => rfl
    | none =>
      have hall := hnone_iff.mp hres
      have hpick := (pickRandomMove_eq_none_iff h r).mpr hall
      simp [Option.orElse, hpick]

/-- Witness for C10 at the empty board. -/
theorem cpuFallback_redundant_witness :
    (findBestAIMove emptyBoard Mark.O Mark.X 2).orElse
        (fun _ => pickRandomMove emptyBoard 2) =
      findBestAIMove emptyBoard Mark.O Mark.X 2 :=
  (cpuFallback_redundant emptyBoard (by decide) 2).2.2

lemma handleClick_eq (s : Session) (i : Nat) :
    handleClick s i = s ∨
    (calculateWinner s.board = .ongoing ∧
      handleClick s i = scoreEffect { s with
        board := jsSet s.board i (some (if s.xIsNext then .X else .O)),
        xIsNext := !s.xIsNext }) := by
  unfold handleClick
  by_cases hg : calculateWinner s.board ≠ .ongoing ∨ (cellAt s.board i).isSome
  · rw [if_pos hg]
    exact Or.inl rfl
  · rw [if_neg hg]
    push_neg at hg
    by_cases h2 : s.mode = .cpu ∧ s.xIsNext = false
    · rw [if_pos h2]
      exact Or.inl rfl
    · rw [if_neg h2]
      exact Or.inr ⟨hg.1, rfl⟩

lemma cpuStep_eq (s : Session) (r : Nat) :
    cpuStep s r = s ∨
    (calculateWinner s.board = .ongoing ∧ ∃ i,
      cpuStep s r = scoreEffect { s with
        board := jsSet s.board i (some .O), xIsNext := true }) := by
  unfold cpuStep
  by_cases hg : s.mode = .cpu ∧ calculateWinner s.board = .ongoing ∧ s.xIsNext = false
  · rw [if_pos hg]
    cases hm : (findBestAIMove s.board .O .X r).orElse (fun _ => pickRandomMove s.board r) with
    | none => exact Or.inl rfl
    | some i =>
      dsimp only
      by_cases hnull : s.board[i]? = some none
      · rw [if_pos hnull]
        exact Or.inr ⟨hg.2.1, i, rfl⟩
      · rw [if_neg hnull]
        exact Or.inl rfl
  · rw [if_neg hg]
    exact Or.inl rfl

/-- C4: scoreboard discipline, operation by operation: from an `ongoing`
board, a `handleClick` or `cpuStep` whose resulting board is won by `w`
increments exactly the counter for `w` by one, one whose resulting board is a
draw increments exactly the draw counter by one, and one whose resulting
board is still ongoing leaves the scores untouched; from a terminal board
both operations are complete no-ops (so the same terminal board is never
counted twice); `resetBoard` and the mode buttons never change the
scores; `resetScores` zeroes all three counters. -/
theorem scoreboard_discipline (s : Session) (i r : Nat) (md : Mode) :
    (∀ w l, calculateWinner s.board = .ongoing →
      calculateWinner (handleClick s i).board = .won w l →
      (handleClick s i).scores = bumpWin w s.scores) ∧
    (calculateWinner s.board = .ongoing →
      calculateWinner (handleClick s i).board = .draw →
      (handleClick s i).scores = { s.scores with Draws := s.scores.Draws + 1 }) ∧
    (calculateWinner (handleClick s i).board = .ongoing →
      (handleClick s i).scores = s.scores) ∧
    (∀ w l, calculateWinner s.board = .ongoing →
      calculateWinner (cpuStep s r).board = .won w l →
      (cpuStep s r).scores = bumpWin w s.scores) ∧
    (calculateWinner s.board = .ongoing →
      calculateWinner (cpuStep s r).board = .draw →
      (cpuStep s r).scores = { s.scores with Draws := s.scores.Draws + 1 }) ∧
    (calculateWinner (cpuStep s r).board = .ongoing →
      (cpuStep s r).scores = s.scores) ∧
    (calculateWinner s.board ≠ .ongoing → handleClick s i = s ∧ cpuStep s r = s) ∧
    (resetBoard s).scores = s.scores ∧
    (setModeOp s md).scores = s.scores ∧
    (resetScores s).scores = { X := 0, O := 0, Draws := 0 } := by
  refine ⟨?_, ?_, ?_, ?_, ?_, ?_, ?_, rfl, rfl, rfl⟩
  · intro w l hA hW
    rcases handleClick_eq s i with he | ⟨-, he⟩
    · rw [he] at hW
      rw [hA] at hW
      cases hW
    · rw [he] at hW ⊢
      rw [scoreEffect_board] at hW
      rw [scoreEffect_scores_won hW]
  · intro hA hW
    rcases handleClick_eq s i with he | ⟨-, he⟩
    · rw [he] at hW
      rw [hA] at hW
      cases hW
    · rw [he] at hW ⊢
      rw [scoreEffect_board] at hW
      rw [scoreEffect_scores_draw hW]
  · intro hO
    rcases handleClick_eq s i with he | ⟨-, he⟩
    · rw [he]
    · rw [he] at hO ⊢
      rw [scoreEffect_board] at hO
      rw [scoreEffect_scores_ongoing hO]
  · intro w l hA hW
    rcases cpuStep_eq s r with he | ⟨-, j, he⟩
    · rw [he] at hW
      rw [hA] at hW
      cases hW
    · rw [he] at hW ⊢
      rw [scoreEffect_board] at hW
      rw [scoreEffect_scores_won hW]
  · intro hA hW
    rcases cpuStep_eq s r with he | ⟨-, j, he⟩
    · rw [he] at hW
      rw [hA] at hW
      cases hW
    · rw [he] at hW ⊢
      rw [scoreEffect_board] at hW
      rw [scoreEffect_scores_draw hW]
  · intro hO
    rcases cpuStep_eq s r with he | ⟨-, j, he⟩
    · rw [he]
    · rw [he] at hO ⊢
      rw [scoreEffect_board] at hO
      rw [scoreEffect_scores_ongoing hO]
  · intro hT
    constructor
    · unfold handleClick
      rw [if_pos (Or.inl hT)]
    · unfold cpuStep
      rw [if_neg fun hcond => hT hcond.2.1]

/-- Witness for C4: X completing the top row from
`[X,X,·,O,O,·,·,·,·]` bumps exactly the X counter. -/
theorem scoreboard_discipline_witness :
    (handleClick
      { board := [some Mark.X, some Mark.X, none, some Mark.O, some Mark.O, none, none, none, none],
        xIsNext := true, mode := Mode.pvp,
        scores := { X := 0, O := 0, Draws := 0 }, highlight := [] } 2).scores =
      bumpWin Mark.X { X := 0, O := 0, Draws := 0 } :=
  (scoreboard_discipline _ 2 0 Mode.pvp).1 Mark.X (0, 1, 2) (by decide) (by decide)
